import Mathlib

/-!
Verification of the decoder-chatbot repository (dataset loader and
transformer model) via a shallow embedding of the two Python source files
into Lean. Tensors are modelled as nested lists, token ids as naturals,
real arithmetic generically over a field with the transcendental scalar
functions passed as parameters.
-/

namespace DecoderChatbot

/-! ### Dataset loader: QADataset from dataset.py -/

/-- State of a QADataset object after construction: the selected split of
question/answer string pairs, the external tokenizer encode function
(modelled as a pure function from text to token ids), the configured
maximum length and the three special token ids. -/
structure QADataset where
  dataset : List (String × String)
  tokenizer : String → List Nat
  max_length : Nat
  pad_id : Nat
  sep_id : Nat
  end_id : Nat

/-- The question string at index idx, as read by getitem. -/
def QADataset.question (ds : QADataset) (idx : Nat) : String :=
  (ds.dataset.getD idx ("", "")).1

/-- The answer string at index idx, as read by getitem. -/
def QADataset.answer (ds : QADataset) (idx : Nat) : String :=
  (ds.dataset.getD idx ("", "")).2

/-- Step 2 of getitem: full_sequence = question_ids + [sep_id] + answer_ids + [end_id]. -/
def QADataset.full_sequence (ds : QADataset) (idx : Nat) : List Nat :=
  ds.tokenizer (ds.question idx) ++ [ds.sep_id] ++ ds.tokenizer (ds.answer idx) ++ [ds.end_id]

/-- Step 3 of getitem: truncate full_sequence to max_length + 1 entries, then
right-pad with pad_id until the length is max_length + 1. -/
def QADataset.padded (ds : QADataset) (idx : Nat) : List Nat :=
  let t := (ds.full_sequence idx).take (ds.max_length + 1)
  t ++ List.replicate (ds.max_length + 1 - t.length) ds.pad_id

/-- The dictionary returned by getitem. The target sequence is an integer
list because masked positions hold the value -100. -/
structure QAItem where
  source_sequence : List Nat
  target_sequence : List Int
  key_padding_mask : List Bool
  deriving DecidableEq

/-- Steps 4 and 5 of getitem: source is padded without its last entry,
target is padded without its first entry, cloned and then overwritten with
-100 at every position where source holds pad_id, and the key padding mask
is true exactly where source holds pad_id. -/
def QADataset.getitem (ds : QADataset) (idx : Nat) : QAItem :=
  let padded := ds.padded idx
  let source_sequence := padded.dropLast
  let target_clone : List Int := (padded.drop 1).map (fun t : Nat => (t : Int))
  let target_sequence :=
    List.zipWith (fun s t => if s = ds.pad_id then (-100 : Int) else t) source_sequence target_clone
  let key_padding_mask := source_sequence.map (fun s => decide (s = ds.pad_id))
  ⟨source_sequence, target_sequence, key_padding_mask⟩

/-- The getitem call threaded through the object state: the body reads the
stored fields and mutates only a local clone, so the object is returned
unchanged. -/
def QADataset.getitemState (ds : QADataset) (idx : Nat) : QAItem × QADataset :=
  (ds.getitem idx, ds)

/-! ### Concrete dataset instances used to evaluate the theorems -/

/-- A fixed two-word tokenizer used by the concrete instances. -/
def exTok : String → List Nat := fun s => if s = "q" then [5, 6] else [7]

/-- A one-pair dataset with pad 0, sep 1, end 2 and max length 6. -/
def exDs : QADataset := ⟨[("q", "a")], exTok, 6, 0, 1, 2⟩

/-- The same pair stored in a longer split, with the same tokenizer and ids. -/
def exDsTwo : QADataset := ⟨[("q", "a"), ("x", "y")], exTok, 6, 0, 1, 2⟩

/-- A dataset whose tokenizer returns no ids, so the combined sequence is
shorter than the configured length and padding occurs. -/
def exDsEmpty : QADataset := ⟨[("", "")], fun _ => [], 4, 0, 1, 2⟩

/-- A dataset whose tokenizer emits the pad id 0 as an ordinary content
token. -/
def exDsPadTok : QADataset := ⟨[("q", "a")], fun _ => [0], 4, 0, 1, 2⟩

/-! ### Model: model.py -/

/-- torch.ones(n, m) as a rational matrix. -/
def onesMat (n m : Nat) : List (List ℚ) :=
  List.replicate n (List.replicate m 1)

/-- torch.triu with a diagonal offset: entries strictly below the given
diagonal are replaced by zero. -/
def triu (a : List (List ℚ)) (diagonal : Int) : List (List ℚ) :=
  a.mapIdx fun i row => row.mapIdx fun j v => if diagonal ≤ (j : Int) - (i : Int) then v else 0

/-- Elementwise conversion to bool: nonzero entries become true. -/
def boolMat (a : List (List ℚ)) : List (List Bool) :=
  a.map fun row => row.map fun v => decide (v ≠ 0)

/-- TransformerModel.generate_causal_mask:
torch.triu(torch.ones(seq_len, seq_len), diagonal=1).bool(). -/
def generate_causal_mask (seq_len : Nat) : List (List Bool) :=
  boolMat (triu (onesMat seq_len seq_len) 1)

section ModelDefs

variable {α : Type} [Field α]

/-- The number of entries of div_term = torch.arange(0, embed_size, 2). -/
def div_term_count (embed_size : Nat) : Nat := (embed_size + 1) / 2

/-- Entry of the positional encoding table built in PositionalEncoding.
Column 2k holds sin(pos * div_term k) and column 2k+1 holds
cos(pos * div_term k), where div_term k = exp(2k * (-log 10000 / embed_size)).
The scalar functions sin, cos, exp are passed as parameters. -/
def pe_entry (sin cos exp : α → α) (log10000 : α) (embed_size pos e : Nat) : α :=
  if e % 2 = 0 then
    sin ((pos : α) * exp ((e : α) * (-log10000 / (embed_size : α))))
  else
    cos ((pos : α) * exp (((e - 1 : Nat) : α) * (-log10000 / (embed_size : α))))

/-- The (max_len, embed_size) positional encoding table that the
constructor registers when the column assignments fit. -/
def pe_table (sin cos exp : α → α) (log10000 : α) (embed_size max_len : Nat) :
    List (List α) :=
  (List.range max_len).map fun pos =>
    (List.range embed_size).map fun e => pe_entry sin cos exp log10000 embed_size pos e

/-- PositionalEncoding.__init__ as a fallible constructor. At embed_size
zero the scalar -log(10000)/embed_size raises a division-by-zero error
before any assignment, modelled as none. Otherwise the sin values form a
(max_len, ceil(d/2)) tensor written into the ceil(d/2) even columns,
which always fits; the cos values form a (max_len, ceil(d/2)) tensor
written into the floor(d/2) odd columns, which the library accepts
exactly when the column counts agree or the source has one column, since
a size-one dimension broadcasts to any width. Otherwise the constructor
raises, modelled as none. -/
def positional_encoding_init (sin cos exp : α → α) (log10000 : α)
    (embed_size max_len : Nat) : Option (List (List α)) :=
  if embed_size = 0 then
    none
  else if div_term_count embed_size = embed_size / 2 ∨ div_term_count embed_size = 1 then
    some (pe_table sin cos exp log10000 embed_size max_len)
  else
    none

/-- PositionalEncoding.forward on a batch: each batch element gets the
first seq_len rows of the table added elementwise. -/
def positional_encoding_forward (pe : List (List α)) (x : List (List (List α))) :
    List (List (List α)) :=
  x.map fun b => List.zipWith (List.zipWith (· + ·)) b (pe.take b.length)

/-- torch.nn.LayerNorm over the last dimension: normalise by mean and
biased variance, then scale and shift elementwise. The square root is
passed as a parameter. -/
def layer_norm (sqrt : α → α) (eps : α) (w b x : List α) : List α :=
  let μ := x.sum / (x.length : α)
  let σ2 := (x.map fun v => (v - μ) ^ 2).sum / (x.length : α)
  List.zipWith (fun xi wb => (xi - μ) / sqrt (σ2 + eps) * wb.1 + wb.2) x (w.zip b)

/-- torch.nn.Linear: weight rows dotted with the input plus the bias. -/
def linear (w : List (List α)) (b x : List α) : List α :=
  List.zipWith (fun row bi => (List.zipWith (· * ·) row x).sum + bi) w b

/-- One DecoderBlock: two layer norms, the multi-head attention call
(modelled as an opaque function of query, key, value, attention mask and
key padding mask, since it is a library primitive), the two-linear-layer
MLP with the GELU scalar function as a parameter, and the two dropout
scalar functions. -/
structure DecoderBlock (α : Type) where
  ln1_weight : List α
  ln1_bias : List α
  attn : List (List α) → List (List α) → List (List α) →
    List (List Bool) → List Bool → List (List α)
  dropout1 : α → α
  ln2_weight : List α
  ln2_bias : List α
  mlp_w1 : List (List α)
  mlp_b1 : List α
  gelu : α → α
  mlp_w2 : List (List α)
  mlp_b2 : List α
  dropout2 : α → α

/-- The MLP of a DecoderBlock: Linear, GELU, Linear. -/
def DecoderBlock.mlp (blk : DecoderBlock α) (x : List α) : List α :=
  linear blk.mlp_w2 blk.mlp_b2 ((linear blk.mlp_w1 blk.mlp_b1 x).map blk.gelu)

/-- First half of DecoderBlock.forward: layer norm, self-attention with
query = key = value = the normalised input, dropout, residual add. -/
def DecoderBlock.attn_res (blk : DecoderBlock α) (sqrt : α → α) (eps : α)
    (x : List (List α)) (attn_mask : List (List Bool)) (padding_mask : List Bool) :
    List (List α) :=
  let norm_x := x.map (layer_norm sqrt eps blk.ln1_weight blk.ln1_bias)
  let attn_output := blk.attn norm_x norm_x norm_x attn_mask padding_mask
  List.zipWith (List.zipWith (· + ·)) x (attn_output.map fun row => row.map blk.dropout1)

/-- Second half of DecoderBlock.forward: layer norm, MLP, dropout,
residual add. -/
def DecoderBlock.ffn_res (blk : DecoderBlock α) (sqrt : α → α) (eps : α)
    (x : List (List α)) : List (List α) :=
  let norm_x := x.map (layer_norm sqrt eps blk.ln2_weight blk.ln2_bias)
  List.zipWith (List.zipWith (· + ·)) x ((norm_x.map blk.mlp).map fun row => row.map blk.dropout2)

/-- DecoderBlock.forward, written exactly as the source: norm, attention,
dropout, residual; then norm, MLP, dropout, residual. -/
def DecoderBlock.forward (blk : DecoderBlock α) (sqrt : α → α) (eps : α)
    (x : List (List α)) (attn_mask : List (List Bool)) (padding_mask : List Bool) :
    List (List α) :=
  let norm_x := x.map (layer_norm sqrt eps blk.ln1_weight blk.ln1_bias)
  let attn_output := blk.attn norm_x norm_x norm_x attn_mask padding_mask
  let x1 := List.zipWith (List.zipWith (· + ·)) x (attn_output.map fun row => row.map blk.dropout1)
  let norm_x2 := x1.map (layer_norm sqrt eps blk.ln2_weight blk.ln2_bias)
  let ff_output := norm_x2.map blk.mlp
  List.zipWith (List.zipWith (· + ·)) x1 (ff_output.map fun row => row.map blk.dropout2)

/-- TransformerModel state after construction: sizes, the embedding
weight, the dropout scalar function, the positional encoding buffer, the
decoder blocks, the output projection, the layer-norm scalar parameters
and the precomputed causal mask buffer. -/
structure TransformerModel (α : Type) where
  embed_size : Nat
  num_layers : Nat
  vocab_size : Nat
  max_len : Nat
  embedding_weight : List (List α)
  dropout : α → α
  pos_encoding : List (List α)
  layers : List (DecoderBlock α)
  fc_out_weight : List (List α)
  fc_out_bias : List α
  sqrt : α → α
  ln_eps : α
  causal_mask : List (List Bool)

/-- Embedding lookup stage of the forward pass, one batch element. -/
def TransformerModel.embed_stage (m : TransformerModel α) (seq : List Nat) : List (List α) :=
  seq.map fun t => m.embedding_weight.getD t []

/-- Positional-encoding stage: add the first seq_len rows of the table. -/
def TransformerModel.pe_stage (m : TransformerModel α) (h : List (List α)) : List (List α) :=
  List.zipWith (List.zipWith (· + ·)) h (m.pos_encoding.take h.length)

/-- Dropout stage, applied elementwise. -/
def TransformerModel.dropout_stage (m : TransformerModel α) (h : List (List α)) :
    List (List α) :=
  h.map fun row => row.map m.dropout

/-- The loop over the decoder blocks. -/
def TransformerModel.layers_stage (m : TransformerModel α) (h : List (List α))
    (attn_mask : List (List Bool)) (padding_mask : List Bool) : List (List α) :=
  m.layers.foldl (fun acc blk => blk.forward m.sqrt m.ln_eps acc attn_mask padding_mask) h

/-- Final projection fc_out applied at every position. -/
def TransformerModel.fc_out_stage (m : TransformerModel α) (h : List (List α)) :
    List (List α) :=
  h.map (linear m.fc_out_weight m.fc_out_bias)

/-- The causal mask sliced to the current sequence length, as in forward. -/
def TransformerModel.sliced_mask (m : TransformerModel α) (seq_len : Nat) :
    List (List Bool) :=
  (m.causal_mask.take seq_len).map fun row => row.take seq_len

/-- TransformerModel.forward on a batch, written exactly as the source:
slice the precomputed causal mask, embed, add positional encoding, apply
dropout, run the decoder blocks, project to vocabulary size. Each batch
element is processed with its own padding-mask row. -/
def TransformerModel.forward (m : TransformerModel α) (x : List (List Nat))
    (padding_mask : List (List Bool)) : List (List (List α)) :=
  List.zipWith (fun seq pm =>
    let attn_mask := (m.causal_mask.take seq.length).map fun row => row.take seq.length
    let emb := seq.map fun t => m.embedding_weight.getD t []
    let pos := List.zipWith (List.zipWith (· + ·)) emb (m.pos_encoding.take emb.length)
    let dropped := pos.map fun row => row.map m.dropout
    let h := m.layers.foldl
      (fun acc blk => blk.forward m.sqrt m.ln_eps acc attn_mask pm) dropped
    h.map (linear m.fc_out_weight m.fc_out_bias)) x padding_mask

/-- Shape constraints a DecoderBlock satisfies after nn.Module
construction with embedding dimension d: layer-norm parameters have d
entries, the first MLP linear maps to 4*d features, the second back to d,
and the attention primitive returns one output row per query row, each of
width d, as nn.MultiheadAttention does. -/
def DecoderBlock.WF (blk : DecoderBlock α) (d : Nat) : Prop :=
  blk.ln1_weight.length = d ∧ blk.ln1_bias.length = d ∧
  blk.ln2_weight.length = d ∧ blk.ln2_bias.length = d ∧
  blk.mlp_w1.length = 4 * d ∧ blk.mlp_b1.length = 4 * d ∧
  blk.mlp_w2.length = d ∧ blk.mlp_b2.length = d ∧
  ∀ q k v am km, (blk.attn q k v am km).length = q.length ∧
    ∀ row ∈ blk.attn q k v am km, row.length = d

/-- Shape constraints TransformerModel satisfies after construction: the
embedding weight is (vocab_size, embed_size), the positional table is
(max_len, embed_size), fc_out is (vocab_size, embed_size) with a
vocab_size bias, the causal-mask buffer is the generated one, and every
block is well formed. -/
def TransformerModel.WF (m : TransformerModel α) : Prop :=
  m.embedding_weight.length = m.vocab_size ∧
  (∀ row ∈ m.embedding_weight, row.length = m.embed_size) ∧
  m.pos_encoding.length = m.max_len ∧
  (∀ row ∈ m.pos_encoding, row.length = m.embed_size) ∧
  m.fc_out_weight.length = m.vocab_size ∧
  m.fc_out_bias.length = m.vocab_size ∧
  m.layers.length = m.num_layers ∧
  m.causal_mask = generate_causal_mask m.max_len ∧
  ∀ blk ∈ m.layers, blk.WF m.embed_size

end ModelDefs

/-- A concrete decoder block over the rationals with embedding width 1,
used to evaluate the shape theorems. -/
def exBlk : DecoderBlock ℚ :=
  ⟨[1], [0], fun q _ _ _ _ => q.map fun _ => [0], id, [1], [0],
    List.replicate 4 [0], List.replicate 4 0, id, [[0, 0, 0, 0]], [0], id⟩

/-- A concrete one-layer model over the rationals with vocabulary 2,
embedding width 1 and maximum length 2. -/
def exModel : TransformerModel ℚ :=
  ⟨1, 1, 2, 2, [[0], [1]], id, [[0], [1]], [exBlk], [[1], [0]], [0, 0], id, 0,
    generate_causal_mask 2⟩

/-! ### Basic length facts about the dataset pipeline -/

theorem QADataset.padded_length (ds : QADataset) (idx : Nat) :
    (ds.padded idx).length = ds.max_length + 1 := by
  simp only [QADataset.padded, List.length_append, List.length_replicate, List.length_take]
  omega

theorem QADataset.source_length (ds : QADataset) (idx : Nat) :
    (ds.getitem idx).source_sequence.length = ds.max_length := by
  simp only [QADataset.getitem, List.length_dropLast, ds.padded_length idx]
  omega

theorem QADataset.target_length (ds : QADataset) (idx : Nat) :
    (ds.getitem idx).target_sequence.length = ds.max_length := by
  have hp := ds.padded_length idx
  simp only [QADataset.getitem, List.length_zipWith, List.length_dropLast, List.length_map,
    List.length_drop, hp]
  omega

theorem QADataset.mask_length (ds : QADataset) (idx : Nat) :
    (ds.getitem idx).key_padding_mask.length = ds.max_length := by
  simp only [QADataset.getitem, List.length_map, List.length_dropLast, ds.padded_length idx]
  omega

theorem QADataset.padded_getD (ds : QADataset) (idx i : Nat) (hi : i < ds.max_length + 1) :
    (ds.padded idx).getD i 0 =
      if i < (ds.full_sequence idx).length then (ds.full_sequence idx).getD i 0 else ds.pad_id := by
  have hlen : (ds.padded idx).length = ds.max_length + 1 := ds.padded_length idx
  rw [List.getD_eq_getElem _ _ (by omega)]
  simp only [QADataset.padded]
  by_cases hf : i < (ds.full_sequence idx).length
  · have htake : i < ((ds.full_sequence idx).take (ds.max_length + 1)).length := by
      simp only [List.length_take]; omega
    rw [List.getElem_append_left htake, List.getElem_take, if_pos hf,
      List.getD_eq_getElem _ _ hf]
  · have htake : ((ds.full_sequence idx).take (ds.max_length + 1)).length ≤ i := by
      simp only [List.length_take]; omega
    rw [List.getElem_append_right htake, List.getElem_replicate, if_neg hf]

theorem QADataset.source_getD (ds : QADataset) (idx i : Nat) (hi : i < ds.max_length) :
    (ds.getitem idx).source_sequence.getD i 0 = (ds.padded idx).getD i 0 := by
  have hlen : (ds.padded idx).length = ds.max_length + 1 := ds.padded_length idx
  simp only [QADataset.getitem]
  rw [List.getD_eq_getElem _ _ (by simp only [List.length_dropLast, hlen]; omega),
    List.getElem_dropLast, List.getD_eq_getElem _ _ (by omega)]

theorem QADataset.full_sequence_length (ds : QADataset) (idx : Nat) :
    (ds.full_sequence idx).length
      = (ds.tokenizer (ds.question idx)).length + 1 + (ds.tokenizer (ds.answer idx)).length + 1 := by
  simp only [QADataset.full_sequence, List.length_append, List.length_singleton]

theorem QADataset.full_sequence_getD_question (ds : QADataset) (idx i : Nat)
    (hi : i < (ds.tokenizer (ds.question idx)).length) :
    (ds.full_sequence idx).getD i 0 = (ds.tokenizer (ds.question idx)).getD i 0 := by
  simp only [QADataset.full_sequence]
  rw [List.getD_append _ _ _ _ (by simp only [List.length_append, List.length_singleton]; omega),
    List.getD_append _ _ _ _ (by simp only [List.length_append, List.length_singleton]; omega),
    List.getD_append _ _ _ _ hi]

theorem QADataset.full_sequence_getD_sep (ds : QADataset) (idx : Nat) :
    (ds.full_sequence idx).getD (ds.tokenizer (ds.question idx)).length 0 = ds.sep_id := by
  simp only [QADataset.full_sequence]
  rw [List.getD_append _ _ _ _ (by simp only [List.length_append, List.length_singleton]; omega),
    List.getD_append _ _ _ _ (by simp only [List.length_append, List.length_singleton]; omega),
    List.getD_append_right _ _ _ _ (Nat.le_refl _), Nat.sub_self]
  rfl

theorem QADataset.full_sequence_getD_answer (ds : QADataset) (idx j : Nat)
    (hj : j < (ds.tokenizer (ds.answer idx)).length) :
    (ds.full_sequence idx).getD ((ds.tokenizer (ds.question idx)).length + 1 + j) 0
      = (ds.tokenizer (ds.answer idx)).getD j 0 := by
  simp only [QADataset.full_sequence]
  rw [List.getD_append _ _ _ _ (by simp only [List.length_append, List.length_singleton]; omega),
    List.getD_append_right _ _ _ _ (by
      simp only [List.length_append, List.length_singleton]; omega)]
  simp only [List.length_append, List.length_singleton]
  rw [show (ds.tokenizer (ds.question idx)).length + 1 + j
      - ((ds.tokenizer (ds.question idx)).length + 1) = j by omega]

theorem QADataset.full_sequence_getD_end (ds : QADataset) (idx : Nat) :
    (ds.full_sequence idx).getD
      ((ds.tokenizer (ds.question idx)).length + 1 + (ds.tokenizer (ds.answer idx)).length) 0
      = ds.end_id := by
  simp only [QADataset.full_sequence]
  rw [List.getD_append_right _ _ _ _ (by
    simp only [List.length_append, List.length_singleton]; omega)]
  simp only [List.length_append, List.length_singleton]
  rw [show (ds.tokenizer (ds.question idx)).length + 1 + (ds.tokenizer (ds.answer idx)).length
      - ((ds.tokenizer (ds.question idx)).length + 1 + (ds.tokenizer (ds.answer idx)).length)
      = 0 by omega]
  rfl

theorem QADataset.target_getD (ds : QADataset) (idx i : Nat) (hi : i < ds.max_length) :
    (ds.getitem idx).target_sequence.getD i 0
      = if (ds.padded idx).getD i 0 = ds.pad_id then -100
        else ((ds.padded idx).getD (i + 1) 0 : Int) := by
  have hp : (ds.padded idx).length = ds.max_length + 1 := ds.padded_length idx
  simp only [QADataset.getitem]
  rw [List.getD_eq_getElem _ _ (by
    simp only [List.length_zipWith, List.length_dropLast, List.length_map, List.length_drop, hp]
    omega)]
  rw [List.getElem_zipWith]
  rw [List.getElem_dropLast, List.getElem_map, List.getElem_drop]
  rw [List.getD_eq_getElem _ _ (by omega), List.getD_eq_getElem _ _ (by omega)]
  simp only [show (1 : Nat) + i = i + 1 from Nat.add_comm 1 i]

theorem QADataset.mask_getD (ds : QADataset) (idx i : Nat) (hi : i < ds.max_length) :
    (ds.getitem idx).key_padding_mask.getD i false
      = decide ((ds.padded idx).getD i 0 = ds.pad_id) := by
  have hp : (ds.padded idx).length = ds.max_length + 1 := ds.padded_length idx
  simp only [QADataset.getitem]
  rw [List.getD_eq_getElem _ _ (by
    simp only [List.length_map, List.length_dropLast, hp]; omega)]
  rw [List.getElem_map, List.getElem_dropLast, List.getD_eq_getElem _ _ (by omega)]

/-! ### Claim theorems for the dataset loader -/

/-- C1: for every dataset index idx, getitem builds the combined token
sequence by concatenating, in this exact order, the tokenized question
ids, the separator token, the tokenized answer ids and the end token,
before any truncation or padding: the combined sequence has exactly
question-length + 1 + answer-length + 1 entries, its first block is the
question ids, the entry after them is sep_id, the next block is the
answer ids, and the final entry is end_id. -/
theorem full_sequence_order (ds : QADataset) (idx : Nat) (hidx : idx < ds.dataset.length) :
    (ds.full_sequence idx).length
      = (ds.tokenizer (ds.question idx)).length + 1 + (ds.tokenizer (ds.answer idx)).length + 1
    ∧ (∀ i, i < (ds.tokenizer (ds.question idx)).length →
        (ds.full_sequence idx).getD i 0 = (ds.tokenizer (ds.question idx)).getD i 0)
    ∧ (ds.full_sequence idx).getD (ds.tokenizer (ds.question idx)).length 0 = ds.sep_id
    ∧ (∀ j, j < (ds.tokenizer (ds.answer idx)).length →
        (ds.full_sequence idx).getD ((ds.tokenizer (ds.question idx)).length + 1 + j) 0
          = (ds.tokenizer (ds.answer idx)).getD j 0)
    ∧ (ds.full_sequence idx).getD
        ((ds.tokenizer (ds.question idx)).length + 1 + (ds.tokenizer (ds.answer idx)).length) 0
        = ds.end_id := by
  exact ⟨ds.full_sequence_length idx,
    fun i hi => ds.full_sequence_getD_question idx i hi,
    ds.full_sequence_getD_sep idx,
    fun j hj => ds.full_sequence_getD_answer idx j hj,
    ds.full_sequence_getD_end idx⟩

/-- Witness for C1 on the concrete dataset exDs at index 0, where the
question tokenizes to two ids and the answer to one. -/
theorem full_sequence_order_witness :
    (0 : Nat) < exDs.dataset.length
    ∧ ((exDs.full_sequence 0).length
        = (exDs.tokenizer (exDs.question 0)).length + 1
          + (exDs.tokenizer (exDs.answer 0)).length + 1
      ∧ (∀ i, i < (exDs.tokenizer (exDs.question 0)).length →
          (exDs.full_sequence 0).getD i 0 = (exDs.tokenizer (exDs.question 0)).getD i 0)
      ∧ (exDs.full_sequence 0).getD (exDs.tokenizer (exDs.question 0)).length 0 = exDs.sep_id
      ∧ (∀ j, j < (exDs.tokenizer (exDs.answer 0)).length →
          (exDs.full_sequence 0).getD ((exDs.tokenizer (exDs.question 0)).length + 1 + j) 0
            = (exDs.tokenizer (exDs.answer 0)).getD j 0)
      ∧ (exDs.full_sequence 0).getD
          ((exDs.tokenizer (exDs.question 0)).length + 1
            + (exDs.tokenizer (exDs.answer 0)).length) 0
          = exDs.end_id) :=
  ⟨by decide, full_sequence_order exDs 0 (by decide)⟩

/-- C2 counterexample: on the concrete dataset exDsEmpty at index 0 the
padded sequence is [1, 2, 0, 0, 0], whose last max_len entries are
[2, 0, 0, 0], but the returned target sequence is [2, 0, -100, -100]
because positions where the source holds pad_id are overwritten with
-100; so the returned target is not the last max_len tokens of the
padded sequence. -/
theorem getitem_target_not_suffix :
    (exDsEmpty.getitem 0).target_sequence
      ≠ ((exDsEmpty.padded 0).drop 1).map (fun t : Nat => (t : Int)) := by
  decide

/-- C2 (amended): all three returned sequences have exactly max_len
entries; the combined sequence is truncated to at most max_len + 1 tokens
and right-padded with pad_id to exactly max_len + 1 tokens; the source is
the first max_len tokens of that padded sequence; and the target is the
last max_len tokens of the padded sequence except that entries whose
source position holds pad_id are replaced by -100. -/
theorem getitem_shape (ds : QADataset) (idx : Nat) (hidx : idx < ds.dataset.length) :
    (ds.getitem idx).source_sequence.length = ds.max_length
    ∧ (ds.getitem idx).target_sequence.length = ds.max_length
    ∧ (ds.getitem idx).key_padding_mask.length = ds.max_length
    ∧ (ds.padded idx).length = ds.max_length + 1
    ∧ (ds.padded idx) = (ds.full_sequence idx).take (ds.max_length + 1)
        ++ List.replicate
          (ds.max_length + 1 - min (ds.full_sequence idx).length (ds.max_length + 1)) ds.pad_id
    ∧ (ds.getitem idx).source_sequence = (ds.padded idx).take ds.max_length
    ∧ ∀ i, i < ds.max_length →
        (ds.getitem idx).target_sequence.getD i 0
          = if (ds.padded idx).getD i 0 = ds.pad_id then -100
            else ((ds.padded idx).getD (i + 1) 0 : Int) := by
  refine ⟨ds.source_length idx, ds.target_length idx, ds.mask_length idx,
    ds.padded_length idx, ?_, ?_, fun i hi => ds.target_getD idx i hi⟩
  · simp only [QADataset.padded, List.length_take]
    congr 2
    omega
  · have hp : (ds.padded idx).length = ds.max_length + 1 := ds.padded_length idx
    simp only [QADataset.getitem]
    rw [List.dropLast_eq_take, hp]
    rfl

/-- Witness for C2 (amended) on the concrete dataset exDs at index 0. -/
theorem getitem_shape_witness :
    (0 : Nat) < exDs.dataset.length
    ∧ ((exDs.getitem 0).source_sequence.length = exDs.max_length
      ∧ (exDs.getitem 0).target_sequence.length = exDs.max_length
      ∧ (exDs.getitem 0).key_padding_mask.length = exDs.max_length
      ∧ (exDs.padded 0).length = exDs.max_length + 1
      ∧ (exDs.padded 0) = (exDs.full_sequence 0).take (exDs.max_length + 1)
          ++ List.replicate
            (exDs.max_length + 1 - min (exDs.full_sequence 0).length (exDs.max_length + 1))
            exDs.pad_id
      ∧ (exDs.getitem 0).source_sequence = (exDs.padded 0).take exDs.max_length
      ∧ ∀ i, i < exDs.max_length →
          (exDs.getitem 0).target_sequence.getD i 0
            = if (exDs.padded 0).getD i 0 = exDs.pad_id then -100
              else ((exDs.padded 0).getD (i + 1) 0 : Int)) :=
  ⟨by decide, getitem_shape exDs 0 (by decide)⟩

/-- C4 counterexample: on the concrete dataset exDsPadTok at index 0 the
tokenizer emits the pad id 0 as an ordinary content token, so position 0
of the source holds a token of the original question sequence, yet the
key padding mask is true there; the mask is therefore not false at every
position holding an original token. -/
theorem mask_true_on_content_token :
    (exDsPadTok.getitem 0).key_padding_mask.getD 0 false = true
    ∧ 0 < (exDsPadTok.full_sequence 0).length
    ∧ (exDsPadTok.getitem 0).source_sequence.getD 0 0 = (exDsPadTok.full_sequence 0).getD 0 0 := by
  decide

/-- C4 (amended): the key padding mask is true exactly where the source
holds pad_id; provided no token of the combined question/SEP/answer/END
sequence equals pad_id, this says the mask is true exactly at the filler
positions, namely the positions at or beyond the combined-sequence
length, and false at every position holding an original token. -/
theorem mask_iff_filler (ds : QADataset) (idx : Nat) (hidx : idx < ds.dataset.length)
    (hp : ∀ t ∈ ds.full_sequence idx, t ≠ ds.pad_id) :
    ∀ i, i < ds.max_length →
      ((ds.getitem idx).key_padding_mask.getD i false = true
        ↔ (ds.full_sequence idx).length ≤ i) := by
  intro i hi
  rw [ds.mask_getD idx i hi, ds.padded_getD idx i (by omega)]
  by_cases hf : i < (ds.full_sequence idx).length
  · rw [if_pos hf]
    have hmem : (ds.full_sequence idx).getD i 0 ∈ ds.full_sequence idx := by
      rw [List.getD_eq_getElem _ _ hf]
      exact List.getElem_mem hf
    simp only [decide_eq_true_eq]
    exact ⟨fun h => absurd h (hp _ hmem), fun h => absurd hf (by omega)⟩
  · rw [if_neg hf]
    have hle : (ds.full_sequence idx).length ≤ i := by omega
    simp [hle]

/-- Witness for C4 (amended) on the concrete dataset exDs at index 0,
whose five content tokens are all nonzero while pad_id is 0. -/
theorem mask_iff_filler_witness :
    (0 : Nat) < exDs.dataset.length
    ∧ (∀ t ∈ exDs.full_sequence 0, t ≠ exDs.pad_id)
    ∧ ∀ i, i < exDs.max_length →
        ((exDs.getitem 0).key_padding_mask.getD i false = true
          ↔ (exDs.full_sequence 0).length ≤ i) :=
  ⟨by decide, by decide, mask_iff_filler exDs 0 (by decide) (by decide)⟩

/-- C6: for every valid index and position, the target holds -100 exactly
when the source holds pad_id there, and otherwise holds the token at the
next position of the padded sequence; moreover, when the combined
sequence fits within max_len and end_id differs from pad_id, the source
position holding the END token has the following PAD token as its target,
not -100. -/
theorem target_masking (ds : QADataset) (idx : Nat) (hidx : idx < ds.dataset.length) :
    (∀ i, i < ds.max_length →
      ((ds.getitem idx).target_sequence.getD i 0 = -100
        ↔ (ds.getitem idx).source_sequence.getD i 0 = ds.pad_id)
      ∧ ((ds.getitem idx).source_sequence.getD i 0 ≠ ds.pad_id →
          (ds.getitem idx).target_sequence.getD i 0 = ((ds.padded idx).getD (i + 1) 0 : Int)))
    ∧ ((ds.full_sequence idx).length ≤ ds.max_length → ds.end_id ≠ ds.pad_id →
        (ds.getitem idx).source_sequence.getD ((ds.full_sequence idx).length - 1) 0 = ds.end_id
        ∧ (ds.getitem idx).target_sequence.getD ((ds.full_sequence idx).length - 1) 0
            = (ds.pad_id : Int)) := by
  have hlen2 : 2 ≤ (ds.full_sequence idx).length := by
    have := ds.full_sequence_length idx
    omega
  constructor
  · intro i hi
    have hsrc : (ds.getitem idx).source_sequence.getD i 0 = (ds.padded idx).getD i 0 :=
      ds.source_getD idx i hi
    have htgt := ds.target_getD idx i hi
    rw [hsrc]
    by_cases hpad : (ds.padded idx).getD i 0 = ds.pad_id
    · rw [htgt, if_pos hpad]
      exact ⟨iff_of_true rfl hpad, fun h => absurd hpad h⟩
    · rw [htgt, if_neg hpad]
      refine ⟨⟨fun h => ?_, fun h => absurd h hpad⟩, fun _ => rfl⟩
      have hge : (0 : Int) ≤ ((ds.padded idx).getD (i + 1) 0 : Int) := Int.natCast_nonneg _
      omega
  · intro hfit hend
    set n := (ds.full_sequence idx).length with hn
    have hend_idx : (ds.full_sequence idx).getD (n - 1) 0 = ds.end_id := by
      have := ds.full_sequence_getD_end idx
      have hn_eq : n - 1 = (ds.tokenizer (ds.question idx)).length + 1
          + (ds.tokenizer (ds.answer idx)).length := by
        have := ds.full_sequence_length idx
        omega
      rw [hn_eq]
      exact this
    have hi : n - 1 < ds.max_length := by omega
    have hsrc : (ds.getitem idx).source_sequence.getD (n - 1) 0
        = (ds.padded idx).getD (n - 1) 0 := ds.source_getD idx _ hi
    have hpv : (ds.padded idx).getD (n - 1) 0 = ds.end_id := by
      rw [ds.padded_getD idx _ (by omega), if_pos (by omega)]
      exact hend_idx
    have hpv1 : (ds.padded idx).getD (n - 1 + 1) 0 = ds.pad_id := by
      rw [ds.padded_getD idx _ (by omega), if_neg (by omega)]
    refine ⟨by rw [hsrc, hpv], ?_⟩
    rw [ds.target_getD idx _ hi, hpv, if_neg hend, hpv1]

/-- Witness for C6 on the concrete dataset exDs at index 0, whose
combined sequence [5, 6, 1, 7, 2] fits in max_len = 6 with end id 2 and
pad id 0. -/
theorem target_masking_witness :
    (0 : Nat) < exDs.dataset.length
    ∧ ((∀ i, i < exDs.max_length →
        (((exDs.getitem 0).target_sequence.getD i 0 = -100
          ↔ (exDs.getitem 0).source_sequence.getD i 0 = exDs.pad_id)
        ∧ ((exDs.getitem 0).source_sequence.getD i 0 ≠ exDs.pad_id →
            (exDs.getitem 0).target_sequence.getD i 0 = ((exDs.padded 0).getD (i + 1) 0 : Int))))
      ∧ ((exDs.full_sequence 0).length ≤ exDs.max_length → exDs.end_id ≠ exDs.pad_id →
          (exDs.getitem 0).source_sequence.getD ((exDs.full_sequence 0).length - 1) 0
            = exDs.end_id
          ∧ (exDs.getitem 0).target_sequence.getD ((exDs.full_sequence 0).length - 1) 0
              = (exDs.pad_id : Int))) :=
  ⟨by decide, target_masking exDs 0 (by decide)⟩

/-- C9: getitem is deterministic and mutation-free: the object state
after a call is unchanged, a second call on that state returns the same
item, and the item depends only on the stored pair at idx, the tokenizer
and the configured ids and length, so any two objects agreeing on those
produce elementwise equal items. -/
theorem getitem_deterministic (ds ds2 : QADataset) (idx : Nat)
    (hds : ds2.dataset.getD idx ("", "") = ds.dataset.getD idx ("", ""))
    (htok : ds2.tokenizer = ds.tokenizer) (hmax : ds2.max_length = ds.max_length)
    (hpad : ds2.pad_id = ds.pad_id) (hsep : ds2.sep_id = ds.sep_id)
    (hend : ds2.end_id = ds.end_id) :
    (ds.getitemState idx).2 = ds
    ∧ ((ds.getitemState idx).2.getitemState idx).1 = (ds.getitemState idx).1
    ∧ ds2.getitem idx = ds.getitem idx := by
  refine ⟨rfl, rfl, ?_⟩
  simp only [QADataset.getitem, QADataset.padded, QADataset.full_sequence, QADataset.question,
    QADataset.answer, hds, htok, hmax, hpad, hsep, hend]

/-- Witness for C9: the concrete datasets exDsTwo and exDs differ in
their stored splits but agree at index 0 and on all configuration, so
their items at index 0 coincide and the state is untouched. -/
theorem getitem_deterministic_witness :
    (exDsTwo.dataset.getD 0 ("", "") = exDs.dataset.getD 0 ("", "")
      ∧ exDsTwo.tokenizer = exDs.tokenizer ∧ exDsTwo.max_length = exDs.max_length
      ∧ exDsTwo.pad_id = exDs.pad_id ∧ exDsTwo.sep_id = exDs.sep_id
      ∧ exDsTwo.end_id = exDs.end_id)
    ∧ ((exDs.getitemState 0).2 = exDs
      ∧ ((exDs.getitemState 0).2.getitemState 0).1 = (exDs.getitemState 0).1
      ∧ exDsTwo.getitem 0 = exDs.getitem 0) :=
  ⟨⟨by decide, rfl, rfl, rfl, rfl, rfl⟩,
    getitem_deterministic exDs exDsTwo 0 (by decide) rfl rfl rfl rfl rfl⟩

/-! ### Claim theorems for the model -/

/-- C3: generate_causal_mask n is an n-by-n boolean matrix whose entry at
row i, column j is true exactly when j > i, so attention to a strictly
later position is masked out and attention to the same or an earlier
position is left unmasked. -/
theorem causal_mask_spec (n i j : Nat) (hi : i < n) (hj : j < n) :
    (generate_causal_mask n).length = n
    ∧ ((generate_causal_mask n).getD i []).length = n
    ∧ (((generate_causal_mask n).getD i []).getD j false = true ↔ j > i) := by
  have hlen : (generate_causal_mask n).length = n := by
    simp [generate_causal_mask, boolMat, triu, onesMat]
  have hrow : ((generate_causal_mask n).getD i []).length = n := by
    rw [List.getD_eq_getElem _ _ (by omega)]
    simp [generate_causal_mask, boolMat, triu, onesMat]
  refine ⟨hlen, hrow, ?_⟩
  have hrowEq : (generate_causal_mask n).getD i []
      = (List.range n).map fun j2 : Nat => decide ((if (1 : Int) ≤ (j2 : Int) - (i : Int)
          then (1 : ℚ) else 0) ≠ 0) := by
    rw [List.getD_eq_getElem _ _ (show i < (generate_causal_mask n).length by omega)]
    simp only [generate_causal_mask, boolMat, triu, onesMat, List.getElem_map,
      List.getElem_mapIdx, List.getElem_replicate]
    apply List.ext_getElem
    · simp
    · intro j2 h1 h2
      simp only [List.getElem_map, List.getElem_mapIdx, List.getElem_replicate,
        List.getElem_range]
  rw [hrowEq, List.getD_eq_getElem _ _ (by simpa using hj), List.getElem_map,
    List.getElem_range]
  by_cases h : i < j
  · rw [if_pos (by omega)]
    simp [h]
  · rw [if_neg (by omega)]
    simp [h]

/-- Witness for C3 at n = 3, i = 1, j = 2. -/
theorem causal_mask_spec_witness :
    (1 : Nat) < 3 ∧ (2 : Nat) < 3
    ∧ ((generate_causal_mask 3).length = 3
      ∧ ((generate_causal_mask 3).getD 1 []).length = 3
      ∧ (((generate_causal_mask 3).getD 1 []).getD 2 false = true ↔ 2 > 1)) :=
  ⟨by decide, by decide, causal_mask_spec 3 1 2 (by decide) (by decide)⟩

/-- C10 counterexample: the claimed success boundary is wrong on both
sides. At embed_size = 1, an odd width, the constructor succeeds: the cos
source has a single column, which broadcasts into the empty odd-column
slice, so no shape mismatch occurs. At embed_size = 0, an even width, the
constructor fails: computing -log(10000)/embed_size divides by zero. -/
theorem positional_encoding_init_odd_one :
    ((positional_encoding_init (id : ℚ → ℚ) id id 0 1 3).isSome = true) ∧ 1 % 2 = 1
    ∧ ((positional_encoding_init (id : ℚ → ℚ) id id 0 0 3).isSome = false) ∧ 0 % 2 = 0 := by
  refine ⟨rfl, by decide, rfl, by decide⟩

/-- C10 (amended): the constructor is well defined for every even
embed_size at least 2 and also for embed_size = 1, where the single cos
column broadcasts into the empty odd-column slice; it fails for
embed_size = 0, where -log(10000)/embed_size divides by zero, and for
odd embed_size at least 3, where ceil(embed_size/2) cos columns cannot
be written into floor(embed_size/2) slots. -/
theorem positional_encoding_init_success {α : Type} [Field α] (sin cos exp : α → α)
    (log10000 : α) (embed_size max_len : Nat) :
    (positional_encoding_init sin cos exp log10000 embed_size max_len).isSome = true
      ↔ ((embed_size % 2 = 0 ∧ embed_size ≠ 0) ∨ embed_size = 1) := by
  unfold positional_encoding_init div_term_count
  split
  · rename_i h
    simp only [Option.isSome_none, Bool.false_eq_true, false_iff]
    omega
  · rename_i h
    split
    · rename_i h2
      simp only [Option.isSome_some, true_iff]
      omega
    · rename_i h2
      simp only [Option.isSome_none, Bool.false_eq_true, false_iff]
      omega

/-! ### Positional encoding table lemmas -/

theorem pe_table_length {α : Type} [Field α] (sin cos exp : α → α) (log10000 : α)
    (d ml : Nat) : (pe_table sin cos exp log10000 d ml).length = ml := by
  simp [pe_table]

theorem pe_table_getD {α : Type} [Field α] (sin cos exp : α → α) (log10000 : α)
    (d ml pos e : Nat) (hpos : pos < ml) (he : e < d) :
    ((pe_table sin cos exp log10000 d ml).getD pos []).getD e 0
      = pe_entry sin cos exp log10000 d pos e := by
  have hrowEq : (pe_table sin cos exp log10000 d ml).getD pos []
      = (List.range d).map fun e2 => pe_entry sin cos exp log10000 d pos e2 := by
    rw [List.getD_eq_getElem _ _ (show pos < (pe_table sin cos exp log10000 d ml).length by
      rw [pe_table_length]; omega)]
    simp only [pe_table, List.getElem_map, List.getElem_range]
  rw [hrowEq, List.getD_eq_getElem _ _ (by simpa using he), List.getElem_map,
    List.getElem_range]

theorem pe_table_row_length {α : Type} [Field α] (sin cos exp : α → α) (log10000 : α)
    (d ml : Nat) : ∀ row ∈ pe_table sin cos exp log10000 d ml, row.length = d := by
  intro row hrow
  unfold pe_table at hrow
  obtain ⟨pos, hpos, rfl⟩ := List.mem_map.mp hrow
  simp

theorem rpow_eq_exp_div_term (c d : ℝ) :
    (10000 : ℝ) ^ (-c / d) = Real.exp (c * (-Real.log 10000 / d)) := by
  rw [Real.rpow_def_of_pos (by norm_num)]
  congr 1
  ring

theorem positional_encoding_forward_length {α : Type} [Field α] (pe : List (List α))
    (x : List (List (List α))) : (positional_encoding_forward pe x).length = x.length := by
  simp [positional_encoding_forward]

theorem positional_encoding_forward_getD {α : Type} [Field α] (pe : List (List α))
    (x : List (List (List α))) (b s e : Nat) (hb : b < x.length)
    (hs : s < (x.getD b []).length) (hsp : s < pe.length)
    (he : e < ((x.getD b []).getD s []).length) (hep : e < (pe.getD s []).length) :
    (((positional_encoding_forward pe x).getD b []).getD s []).getD e 0
      = ((x.getD b []).getD s []).getD e 0 + (pe.getD s []).getD e 0 := by
  have h1 : (positional_encoding_forward pe x).getD b []
      = List.zipWith (List.zipWith (· + ·)) (x.getD b [])
          (pe.take (x.getD b []).length) := by
    unfold positional_encoding_forward
    rw [List.getD_eq_getElem _ _ (by simpa using hb), List.getElem_map,
      List.getD_eq_getElem _ _ hb]
  have h2 : ((positional_encoding_forward pe x).getD b []).getD s []
      = List.zipWith (· + ·) ((x.getD b []).getD s []) (pe.getD s []) := by
    rw [h1, List.getD_eq_getElem _ _ (show s < (List.zipWith (List.zipWith (· + ·))
        (x.getD b []) (pe.take (x.getD b []).length)).length by
      rw [List.length_zipWith, List.length_take]
      omega)]
    rw [List.getElem_zipWith, List.getElem_take, List.getD_eq_getElem _ _ hs,
      List.getD_eq_getElem _ _ hsp]
  rw [h2, List.getD_eq_getElem _ _ (show e < (List.zipWith (· + ·)
      ((x.getD b []).getD s []) (pe.getD s [])).length by
    rw [List.length_zipWith]
    omega)]
  rw [List.getElem_zipWith, List.getD_eq_getElem _ _ he, List.getD_eq_getElem _ _ hep]

/-- C8: for even embed_size the constructor succeeds and the registered
table is the standard sinusoid: for every pos < max_len and 2k <
embed_size, entry (pos, 2k) is sin(pos * 10000 ^ (-2k/embed_size)) and
entry (pos, 2k+1) is cos(pos * 10000 ^ (-2k/embed_size)); and forward
adds the first seq_len rows of the table to x elementwise, changing
nothing else: the output has one entry per entry of x, each equal to the
input entry plus the table entry at its position. -/
theorem positional_encoding_values (d ml : Nat) (hd : d % 2 = 0) (pos k : Nat)
    (hpos : pos < ml) (hk : 2 * k < d) :
    ∃ pe : List (List ℝ),
      positional_encoding_init Real.sin Real.cos Real.exp (Real.log 10000) d ml = some pe
      ∧ (pe.getD pos []).getD (2 * k) 0
          = Real.sin ((pos : ℝ) * (10000 : ℝ) ^ (-(2 * (k : ℝ)) / (d : ℝ)))
      ∧ (pe.getD pos []).getD (2 * k + 1) 0
          = Real.cos ((pos : ℝ) * (10000 : ℝ) ^ (-(2 * (k : ℝ)) / (d : ℝ)))
      ∧ (∀ x : List (List (List ℝ)), (positional_encoding_forward pe x).length = x.length)
      ∧ ∀ (x : List (List (List ℝ))) (b s e : Nat),
          b < x.length → s < (x.getD b []).length → (x.getD b []).length ≤ ml →
          e < ((x.getD b []).getD s []).length → e < d →
          (((positional_encoding_forward pe x).getD b []).getD s []).getD e 0
            = ((x.getD b []).getD s []).getD e 0
              + ((pe.getD s []).getD e 0 : ℝ) := by
  have hk1 : 2 * k + 1 < d := by omega
  refine ⟨pe_table Real.sin Real.cos Real.exp (Real.log 10000) d ml, ?_, ?_, ?_, ?_, ?_⟩
  · unfold positional_encoding_init div_term_count
    rw [if_neg (by omega), if_pos (by omega)]
  · rw [pe_table_getD _ _ _ _ _ _ _ _ hpos (by omega)]
    unfold pe_entry
    rw [if_pos (by omega)]
    have hcast : ((2 * k : Nat) : ℝ) = 2 * (k : ℝ) := by push_cast; ring
    rw [hcast, rpow_eq_exp_div_term]
  · rw [pe_table_getD _ _ _ _ _ _ _ _ hpos hk1]
    unfold pe_entry
    rw [if_neg (by omega)]
    have hsub : (2 * k + 1 - 1 : Nat) = 2 * k := by omega
    rw [hsub]
    have hcast : ((2 * k : Nat) : ℝ) = 2 * (k : ℝ) := by push_cast; ring
    rw [hcast, rpow_eq_exp_div_term]
  · intro x
    exact positional_encoding_forward_length _ x
  · intro x b s e hb hs hml he hed
    have hsp : s < (pe_table Real.sin Real.cos Real.exp (Real.log 10000) d ml).length := by
      rw [pe_table_length]
      omega
    have hep : e < ((pe_table Real.sin Real.cos Real.exp (Real.log 10000) d ml).getD
        s []).length := by
      have hmem : (pe_table Real.sin Real.cos Real.exp (Real.log 10000) d ml).getD s []
          ∈ pe_table Real.sin Real.cos Real.exp (Real.log 10000) d ml := by
        rw [List.getD_eq_getElem _ _ hsp]
        exact List.getElem_mem hsp
      rw [pe_table_row_length Real.sin Real.cos Real.exp (Real.log 10000) d ml _ hmem]
      omega
    exact positional_encoding_forward_getD _ x b s e hb hs hsp he hep

/-- Witness for C8 at embed_size 2, max_len 1, position 0, k = 0. -/
theorem positional_encoding_values_witness :
    (2 : Nat) % 2 = 0 ∧ (0 : Nat) < 1 ∧ 2 * 0 < 2
    ∧ ∃ pe : List (List ℝ),
      positional_encoding_init Real.sin Real.cos Real.exp (Real.log 10000) 2 1 = some pe
      ∧ (pe.getD 0 []).getD (2 * 0) 0
          = Real.sin (((0 : Nat) : ℝ) * (10000 : ℝ) ^ (-(2 * ((0 : Nat) : ℝ)) / ((2 : Nat) : ℝ)))
      ∧ (pe.getD 0 []).getD (2 * 0 + 1) 0
          = Real.cos (((0 : Nat) : ℝ) * (10000 : ℝ) ^ (-(2 * ((0 : Nat) : ℝ)) / ((2 : Nat) : ℝ)))
      ∧ (∀ x : List (List (List ℝ)), (positional_encoding_forward pe x).length = x.length)
      ∧ ∀ (x : List (List (List ℝ))) (b s e : Nat),
          b < x.length → s < (x.getD b []).length → (x.getD b []).length ≤ 1 →
          e < ((x.getD b []).getD s []).length → e < 2 →
          (((positional_encoding_forward pe x).getD b []).getD s []).getD e 0
            = ((x.getD b []).getD s []).getD e 0 + ((pe.getD s []).getD e 0 : ℝ) :=
  ⟨by decide, by decide, by decide, positional_encoding_values 2 1 (by decide) 0 0
    (by decide) (by decide)⟩

/-! ### Pipeline structure: C7 -/

/-- C7: the forward pass applies, per batch element, exactly the fixed
pipeline embedding lookup, positional-encoding addition, dropout, the
fold over the num_layers decoder blocks with the sliced causal mask, and
the final projection fc_out; and each decoder block is layer norm
followed by self-attention added back as a residual, then layer norm
followed by the feed-forward network added back as a residual; a
well-formed model runs exactly num_layers blocks. -/
theorem forward_pipeline {α : Type} [Field α] (m : TransformerModel α)
    (x : List (List Nat)) (padding_mask : List (List Bool)) :
    m.forward x padding_mask
      = List.zipWith (fun seq pm =>
          m.fc_out_stage (m.layers_stage (m.dropout_stage (m.pe_stage (m.embed_stage seq)))
            (m.sliced_mask seq.length) pm)) x padding_mask
    ∧ (∀ (blk : DecoderBlock α) (sqrt : α → α) (eps : α) (y : List (List α))
        (am : List (List Bool)) (km : List Bool),
        blk.forward sqrt eps y am km = blk.ffn_res sqrt eps (blk.attn_res sqrt eps y am km))
    ∧ (m.WF → m.layers.length = m.num_layers) :=
  ⟨rfl, fun _ _ _ _ _ _ => rfl, fun hwf => hwf.2.2.2.2.2.2.1⟩

/-- Witness for C7 on the concrete one-layer model exModel and a
one-element batch. -/
theorem forward_pipeline_witness :
    exModel.forward [[0, 1]] [[false, false]]
      = List.zipWith (fun seq pm =>
          exModel.fc_out_stage (exModel.layers_stage
            (exModel.dropout_stage (exModel.pe_stage (exModel.embed_stage seq)))
            (exModel.sliced_mask seq.length) pm)) [[0, 1]] [[false, false]]
    ∧ (∀ (blk : DecoderBlock ℚ) (sqrt : ℚ → ℚ) (eps : ℚ) (y : List (List ℚ))
        (am : List (List Bool)) (km : List Bool),
        blk.forward sqrt eps y am km = blk.ffn_res sqrt eps (blk.attn_res sqrt eps y am km))
    ∧ (exModel.WF → exModel.layers.length = exModel.num_layers) :=
  forward_pipeline exModel [[0, 1]] [[false, false]]

/-! ### Shape lemmas for C5 -/

theorem forall_mem_zipWith {α β γ : Type _} {f : α → β → γ} {p : γ → Prop}
    {a : List α} {b : List β}
    (h : ∀ u ∈ a, ∀ v ∈ b, p (f u v)) : ∀ c ∈ List.zipWith f a b, p c := by
  intro c hc
  rw [List.mem_iff_getElem] at hc
  obtain ⟨i, hi, rfl⟩ := hc
  rw [List.length_zipWith] at hi
  rw [List.getElem_zipWith]
  exact h _ (List.getElem_mem (by omega)) _ (List.getElem_mem (by omega))

theorem layer_norm_length {α : Type} [Field α] (sqrt : α → α) (eps : α) (w b x : List α) :
    (layer_norm sqrt eps w b x).length = min x.length (min w.length b.length) := by
  simp [layer_norm, List.length_zipWith, List.length_zip]

theorem linear_length {α : Type} [Field α] (w : List (List α)) (b x : List α) :
    (linear w b x).length = min w.length b.length := by
  simp [linear, List.length_zipWith]

theorem DecoderBlock.attn_res_shape {α : Type} [Field α] (blk : DecoderBlock α) (d : Nat)
    (hln1w : blk.ln1_weight.length = d) (hln1b : blk.ln1_bias.length = d)
    (hattn : ∀ q k v am km, (blk.attn q k v am km).length = q.length ∧
      ∀ row ∈ blk.attn q k v am km, row.length = d)
    (sqrt : α → α) (eps : α) (x : List (List α)) (am : List (List Bool)) (km : List Bool)
    (hrows : ∀ row ∈ x, row.length = d) :
    (blk.attn_res sqrt eps x am km).length = x.length
    ∧ ∀ row ∈ blk.attn_res sqrt eps x am km, row.length = d := by
  unfold DecoderBlock.attn_res
  obtain ⟨halen, harows⟩ := hattn (x.map (layer_norm sqrt eps blk.ln1_weight blk.ln1_bias))
    (x.map (layer_norm sqrt eps blk.ln1_weight blk.ln1_bias))
    (x.map (layer_norm sqrt eps blk.ln1_weight blk.ln1_bias)) am km
  constructor
  · rw [List.length_zipWith, List.length_map, halen, List.length_map]
    omega
  · apply forall_mem_zipWith
    intro u hu v hv
    obtain ⟨r, hr, rfl⟩ := List.mem_map.mp hv
    rw [List.length_zipWith, hrows u hu, List.length_map, harows r hr]
    omega

theorem DecoderBlock.ffn_res_shape {α : Type} [Field α] (blk : DecoderBlock α) (d : Nat)
    (hw2 : blk.mlp_w2.length = d) (hb2 : blk.mlp_b2.length = d)
    (sqrt : α → α) (eps : α) (x : List (List α))
    (hrows : ∀ row ∈ x, row.length = d) :
    (blk.ffn_res sqrt eps x).length = x.length
    ∧ ∀ row ∈ blk.ffn_res sqrt eps x, row.length = d := by
  unfold DecoderBlock.ffn_res
  constructor
  · rw [List.length_zipWith, List.length_map, List.length_map, List.length_map]
    omega
  · apply forall_mem_zipWith
    intro u hu v hv
    obtain ⟨r2, hr2, rfl⟩ := List.mem_map.mp hv
    obtain ⟨r3, hr3, rfl⟩ := List.mem_map.mp hr2
    rw [List.length_zipWith, hrows u hu, List.length_map]
    unfold DecoderBlock.mlp
    rw [linear_length, hw2, hb2]
    omega

theorem DecoderBlock.shape_preserved {α : Type} [Field α] (blk : DecoderBlock α) (d : Nat)
    (hwf : blk.WF d) (sqrt : α → α) (eps : α) (x : List (List α))
    (am : List (List Bool)) (km : List Bool)
    (hrows : ∀ row ∈ x, row.length = d) :
    (blk.forward sqrt eps x am km).length = x.length
    ∧ ∀ row ∈ blk.forward sqrt eps x am km, row.length = d := by
  obtain ⟨h1, h2, h3, h4, h5, h6, h7, h8, h9⟩ := hwf
  have heq : blk.forward sqrt eps x am km
      = blk.ffn_res sqrt eps (blk.attn_res sqrt eps x am km) := rfl
  rw [heq]
  obtain ⟨hal, har⟩ := blk.attn_res_shape d h1 h2 h9 sqrt eps x am km hrows
  obtain ⟨hfl, hfr⟩ := blk.ffn_res_shape d h7 h8 sqrt eps
    (blk.attn_res sqrt eps x am km) har
  exact ⟨by rw [hfl, hal], hfr⟩

theorem layers_fold_shape {α : Type} [Field α] (layers : List (DecoderBlock α)) (d : Nat)
    (hwf : ∀ blk ∈ layers, blk.WF d) (sqrt : α → α) (eps : α)
    (am : List (List Bool)) (km : List Bool) :
    ∀ acc : List (List α), (∀ row ∈ acc, row.length = d) →
      (layers.foldl (fun h blk => blk.forward sqrt eps h am km) acc).length = acc.length
      ∧ ∀ row ∈ layers.foldl (fun h blk => blk.forward sqrt eps h am km) acc,
          row.length = d := by
  induction layers with
  | nil =>
    intro acc hacc
    exact ⟨rfl, hacc⟩
  | cons blk rest ih =>
    intro acc hacc
    simp only [List.foldl_cons]
    have hblk := blk.shape_preserved d (hwf blk (List.mem_cons_self blk rest)) sqrt eps
      acc am km hacc
    have hrest := ih (fun b hb => hwf b (List.mem_cons_of_mem _ hb))
      (blk.forward sqrt eps acc am km) hblk.2
    exact ⟨by rw [hrest.1, hblk.1], hrest.2⟩

/-- C5: for every well-formed model, every batch of valid token-id
sequences of a common length s at most max_len, and every padding mask of
matching batch shape, forward returns one output per batch element, each
with one row per input position and one logit per vocabulary entry, i.e.
shape (batch_size, seq_len, vocab_size). -/
theorem transformer_forward_shape {α : Type} [Field α] (m : TransformerModel α)
    (hwf : m.WF) (x : List (List Nat)) (padding_mask : List (List Bool)) (s : Nat)
    (hbatch : x.length = padding_mask.length)
    (hseq : ∀ seq ∈ x, seq.length = s) (hs : s ≤ m.max_len)
    (hids : ∀ seq ∈ x, ∀ t ∈ seq, t < m.vocab_size)
    (hpm : ∀ pm ∈ padding_mask, pm.length = s) :
    (m.forward x padding_mask).length = x.length
    ∧ ∀ out ∈ m.forward x padding_mask, out.length = s
      ∧ ∀ row ∈ out, row.length = m.vocab_size := by
  obtain ⟨hemb, hembrows, hposlen, hposrows, hfcw, hfcb, hnl, hcm, hblocks⟩ := hwf
  constructor
  · unfold TransformerModel.forward
    rw [List.length_zipWith, hbatch]
    omega
  · unfold TransformerModel.forward
    apply forall_mem_zipWith
    intro seq hseqmem pm hpmmem
    dsimp only
    have hembrows2 : ∀ row ∈ seq.map fun t => m.embedding_weight.getD t [],
        row.length = m.embed_size := by
      intro row hrow
      obtain ⟨t, ht, rfl⟩ := List.mem_map.mp hrow
      have htv : t < m.embedding_weight.length := by
        rw [hemb]
        exact hids seq hseqmem t ht
      rw [List.getD_eq_getElem _ _ htv]
      exact hembrows _ (List.getElem_mem htv)
    have hemblen : (seq.map fun t => m.embedding_weight.getD t []).length = s := by
      rw [List.length_map]
      exact hseq seq hseqmem
    have hposlen2 : (List.zipWith (List.zipWith (· + ·))
        (seq.map fun t => m.embedding_weight.getD t [])
        (m.pos_encoding.take (seq.map fun t => m.embedding_weight.getD t []).length)).length
        = s := by
      rw [List.length_zipWith, List.length_take, hemblen, hposlen]
      omega
    have hposrows2 : ∀ row ∈ List.zipWith (List.zipWith (· + ·))
        (seq.map fun t => m.embedding_weight.getD t [])
        (m.pos_encoding.take (seq.map fun t => m.embedding_weight.getD t []).length),
        row.length = m.embed_size := by
      apply forall_mem_zipWith
      intro u hu v hv
      rw [List.length_zipWith, hembrows2 u hu, hposrows v (List.mem_of_mem_take hv)]
      omega
    have hdroplen : ((List.zipWith (List.zipWith (· + ·))
        (seq.map fun t => m.embedding_weight.getD t [])
        (m.pos_encoding.take (seq.map fun t => m.embedding_weight.getD t []).length)).map
          fun row => row.map m.dropout).length = s := by
      rw [List.length_map]
      exact hposlen2
    have hdroprows : ∀ row ∈ (List.zipWith (List.zipWith (· + ·))
        (seq.map fun t => m.embedding_weight.getD t [])
        (m.pos_encoding.take (seq.map fun t => m.embedding_weight.getD t []).length)).map
          fun row => row.map m.dropout, row.length = m.embed_size := by
      intro row hrow
      obtain ⟨r, hr, rfl⟩ := List.mem_map.mp hrow
      rw [List.length_map]
      exact hposrows2 r hr
    obtain ⟨hfold_len, hfold_rows⟩ := layers_fold_shape m.layers m.embed_size hblocks
      m.sqrt m.ln_eps ((m.causal_mask.take seq.length).map fun row => row.take seq.length)
      pm _ hdroprows
    constructor
    · rw [List.length_map, hfold_len, hdroplen]
    · intro row hrow
      obtain ⟨r, hr, rfl⟩ := List.mem_map.mp hrow
      rw [linear_length, hfcw, hfcb]
      omega

/-- Witness for C5 on the concrete one-layer model exModel with a batch
of one sequence of length 2 over the vocabulary of size 2. -/
theorem transformer_forward_shape_witness :
    exModel.WF
    ∧ ([[0, 1]] : List (List Nat)).length = ([[false, false]] : List (List Bool)).length
    ∧ (∀ seq ∈ ([[0, 1]] : List (List Nat)), seq.length = 2)
    ∧ 2 ≤ exModel.max_len
    ∧ (∀ seq ∈ ([[0, 1]] : List (List Nat)), ∀ t ∈ seq, t < exModel.vocab_size)
    ∧ (∀ pm ∈ ([[false, false]] : List (List Bool)), pm.length = 2)
    ∧ ((exModel.forward [[0, 1]] [[false, false]]).length
        = ([[0, 1]] : List (List Nat)).length
      ∧ ∀ out ∈ exModel.forward [[0, 1]] [[false, false]], out.length = 2
        ∧ ∀ row ∈ out, row.length = exModel.vocab_size) := by
  have hblk : exBlk.WF 1 := by
    refine ⟨by decide, by decide, by decide, by decide, by decide, by decide, by decide,
      by decide, ?_⟩
    intro q k v am km
    constructor
    · simp [exBlk]
    · intro row hrow
      simp only [exBlk, List.mem_map] at hrow
      obtain ⟨u, hu, rfl⟩ := hrow
      rfl
  have hwf : exModel.WF := by
    refine ⟨by decide, by decide, by decide, by decide, by decide, by decide, by decide,
      rfl, ?_⟩
    intro blk hb
    have hbe : blk = exBlk := by simpa [exModel] using hb
    rw [hbe]
    exact hblk
  exact ⟨hwf, rfl, by decide, by decide, by decide, by decide,
    transformer_forward_shape exModel hwf [[0, 1]] [[false, false]] 2 rfl
      (by decide) (by decide) (by decide) (by decide)⟩

end DecoderChatbot
